import Mathlib

/-!
Verification of the pizza-survey data-processing pipeline
(`dataProcessor.js`): flexible column resolution, keyword-based
categorical bucketing, and the nine aggregation reducers.

The JavaScript module is shallowly embedded: rows are association lists
of column-name/value string pairs, JS numbers are modelled as exact
rationals (all arithmetic in the pipeline is on small survey counts and
ratings), `Math.round` is "round half away from negative infinity", and
the `Math.random` stream consumed by the comments shuffle is threaded as
an explicit argument.  String lower-casing is modelled on ASCII letters,
matching every alias, keyword and test string appearing in the module.
-/

namespace PizzaProc

/-! ### Substring machinery, modelling `String.prototype.includes` -/

/-- Boolean test: the list `pat` starts the list `s`. -/
def leadsB : List Char → List Char → Bool
  | [], _ => true
  | _ :: _, [] => false
  | a :: as, b :: bs => a == b && leadsB as bs

/-- Boolean test: the list `pat` occurs contiguously inside `s`. -/
def subB (pat : List Char) : List Char → Bool
  | [] => pat.isEmpty
  | c :: cs => leadsB pat (c :: cs) || subB pat cs

/-- `s` occurs contiguously inside `t` (the mathematical substring relation). -/
def Occurs (pat s : List Char) : Prop := ∃ pre post, pre ++ pat ++ post = s

/-- Models `s.includes(pat)` of JavaScript. -/
def jsIncludes (s pat : String) : Bool := subB pat.toList s.toList

/-- ASCII lower-casing of one character.  JS `toLowerCase` is full
Unicode, but every alias, keyword and category string in the module is
ASCII, where the two coincide. -/
def lowerChar (c : Char) : Char :=
  if 'A' ≤ c ∧ c ≤ 'Z' then Char.ofNat (c.toNat + 32) else c

/-- Models `s.toLowerCase()` (ASCII range). -/
def jsToLower (s : String) : String := String.mk (s.toList.map lowerChar)

/-- Models `s.trim()`: strip whitespace from both ends. -/
def jsTrim (s : String) : String :=
  String.mk (((s.toList.dropWhile Char.isWhitespace).reverse.dropWhile Char.isWhitespace).reverse)

/-- Split a character list at every delimiter occurrence (JS
`split` with a single-character-class regex): delimiters are dropped and
empty fragments are kept. -/
def splitList (p : Char → Bool) : List Char → List (List Char)
  | [] => [[]]
  | c :: cs =>
    if p c then [] :: splitList p cs
    else
      match splitList p cs with
      | t :: ts => (c :: t) :: ts
      | [] => [[c]]

/-- Models `s.split(regex)` for a single-character-class regex. -/
def jsSplit (p : Char → Bool) (s : String) : List String :=
  (splitList p s.toList).map String.mk

theorem leadsB_iff (p s : List Char) : leadsB p s = true ↔ ∃ rest, p ++ rest = s := by
  induction p generalizing s with
  | nil => simp [leadsB]
  | cons a as ih =>
    cases s with
    | nil => simp [leadsB]
    | cons b bs =>
      simp only [leadsB, Bool.and_eq_true, beq_iff_eq, ih]
      constructor
      · rintro ⟨rfl, rest, rfl⟩; exact ⟨rest, rfl⟩
      · rintro ⟨rest, h⟩
        injection h with h1 h2
        exact ⟨h1, rest, h2⟩

theorem subB_iff (p s : List Char) : subB p s = true ↔ Occurs p s := by
  induction s with
  | nil =>
    simp only [subB, List.isEmpty_iff, Occurs]
    constructor
    · rintro rfl; exact ⟨[], [], rfl⟩
    · rintro ⟨pre, post, h⟩
      rcases List.append_eq_nil.mp h with ⟨h1, h2⟩
      exact (List.append_eq_nil.mp h1).2
  | cons c cs ih =>
    simp only [subB, Bool.or_eq_true, leadsB_iff, ih, Occurs]
    constructor
    · rintro (⟨rest, h⟩ | ⟨pre, post, h⟩)
      · exact ⟨[], rest, h⟩
      · exact ⟨c :: pre, post, by simp [h]⟩
    · rintro ⟨pre, post, h⟩
      cases pre with
      | nil => exact Or.inl ⟨post, by simpa using h⟩
      | cons d pre =>
        injection h with h1 h2
        exact Or.inr ⟨pre, post, h2⟩

instance (p s : List Char) : Decidable (Occurs p s) :=
  decidable_of_iff _ (subB_iff p s)

theorem jsIncludes_iff (s pat : String) :
    jsIncludes s pat = true ↔ Occurs pat.toList s.toList :=
  subB_iff _ _

theorem occurs_refl (l : List Char) : Occurs l l := ⟨[], [], by simp⟩

/-! ### JS number helpers on exact rationals -/

/-- Numeric value of a list of decimal digit characters. -/
def digitsVal (l : List Char) : ℕ := l.foldl (fun n c => 10 * n + (c.toNat - 48)) 0

/-- Exponent part of a float literal: optional sign then digits; an
invalid exponent contributes the factor `10 ^ 0`, as JS `parseFloat`
only consumes a well-formed exponent suffix. -/
def parseExpPart (l : List Char) : ℤ :=
  let (sign, l1) : ℤ × List Char :=
    match l with
    | '-' :: rest => (-1, rest)
    | '+' :: rest => (1, rest)
    | _ => (1, l)
  let ds := l1.takeWhile Char.isDigit
  if ds = [] then 0 else sign * (digitsVal ds : ℤ)

/-- Models JS `parseFloat`: skip leading whitespace, optional sign,
decimal digits with optional fraction and exponent; `none` models `NaN`
(no parse).  Values are exact rationals; the special value `Infinity`
is modelled as no-parse (it never lies in any range the pipeline keeps). -/
def parseFloat (s : String) : Option ℚ :=
  let l := s.toList.dropWhile Char.isWhitespace
  let (sign, l1) : ℚ × List Char :=
    match l with
    | '-' :: rest => (-1, rest)
    | '+' :: rest => (1, rest)
    | _ => (1, l)
  let intPart := l1.takeWhile Char.isDigit
  let l2 := l1.dropWhile Char.isDigit
  let (fracPart, l3) : List Char × List Char :=
    match l2 with
    | '.' :: rest => (rest.takeWhile Char.isDigit, rest.dropWhile Char.isDigit)
    | _ => ([], l2)
  if intPart = [] ∧ fracPart = [] then none
  else
    let mantissa : ℚ := (digitsVal intPart : ℚ) + (digitsVal fracPart : ℚ) / ((10 : ℚ) ^ fracPart.length)
    let e : ℤ :=
      match l3 with
      | 'e' :: rest => parseExpPart rest
      | 'E' :: rest => parseExpPart rest
      | _ => 0
    some (sign * mantissa * (10 : ℚ) ^ e)

/-- Models JS `Math.round`: round half away from negative infinity. -/
def jsRound (q : ℚ) : ℤ := ⌊q + 1 / 2⌋

theorem jsRound_nonneg {q : ℚ} (h : 0 ≤ q) : 0 ≤ jsRound q := by
  unfold jsRound
  positivity

theorem jsRound_le_hundred {q : ℚ} (h : q ≤ 100) : jsRound q ≤ 100 := by
  unfold jsRound
  have : (100 : ℤ) = ⌊(201 : ℚ) / 2⌋ := by norm_num
  rw [this]
  exact Int.floor_le_floor (by linarith)

theorem jsRound_ge {q : ℚ} {n : ℤ} (h : (n : ℚ) ≤ q) : n ≤ jsRound q := by
  unfold jsRound
  have : (n : ℚ) ≤ q + 1 / 2 := by linarith
  exact Int.le_floor.mpr this

/-! ### Data model: rows and logical fields -/

/-- A raw survey row: an association list from column-name strings to value
strings, in the object's key insertion order (`Object.keys` order). -/
abbrev Row := List (String × String)

/-- The logical fields of `COLUMN_MAPPINGS`. -/
inductive Field where
  | rating | pizzaType | feeling | orderAgain | tier | oneWord | coldPizza | comments | timestamp
deriving DecidableEq, Fintype

/-- Column name mappings for flexibility (alias lists, in priority order). -/
def COLUMN_MAPPINGS : Field → List String
  | .rating => ["Rate the overall taste of the pizza:", "Rate this pizza (1-10)", "Rating", "Score", "rate", "rating"]
  | .pizzaType => ["What pizza did you try?", "Which pizza did you try?", "Pizza Type", "Pizza", "pizza type", "Which pizza"]
  | .feeling => ["How do you feel after eating this pizza", "How do you feel after eating?", "Feeling", "How do you feel", "feeling"]
  | .orderAgain => ["Would you want this pizza again", "Would you order again?", "Order Again", "Would order again", "order again"]
  | .tier => ["Where does this land", "Pizza tier ranking", "Tier", "Ranking", "tier ranking"]
  | .oneWord => ["Describe this pizza in ONE word", "One word to describe", "One Word", "Describe", "one word"]
  | .coldPizza => ["eat this pizza cold", "Cold pizza preference", "Cold Pizza", "cold pizza"]
  | .comments => ["Elaborate", "Additional comments", "Comments", "Feedback", "comments"]
  | .timestamp => ["Timestamp", "Date", "Submitted", "timestamp"]

/-- One alias/key match test of `findColumn`:
`k.toLowerCase().includes(mapping.toLowerCase()) || mapping.toLowerCase().includes(k.toLowerCase())`. -/
def colMatch (mapping k : String) : Bool :=
  jsIncludes (jsToLower k) (jsToLower mapping) || jsIncludes (jsToLower mapping) (jsToLower k)

/-- `findColumn(row, field)`: for each alias in priority order, take the first
row key matching in either substring direction.  The JS source then does
`if (found) return found;`, so a found key that is the empty string (falsy)
does not end the search; this is the inner `if k = ""` test. -/
def findColumn (row : Row) (field : Field) : Option String :=
  (COLUMN_MAPPINGS field).findSome? fun mapping =>
    match (row.map Prod.fst).find? (fun k => colMatch mapping k) with
    | some k => if k = "" then none else some k
    | none => none

/-- First value stored under column `c`; JS object keys are unique, so the
first binding is the binding. -/
def lookupVal (row : Row) (c : String) : String :=
  match row.find? (fun e => e.1 == c) with
  | some e => e.2
  | none => ""

/-- `getValue(row, field)`: the value under the resolved column, or `''` when
no column resolves (`findColumn` never returns a non-null falsy column, so
`column ? row[column] : ''` is exactly this match). -/
def getValue (row : Row) (field : Field) : String :=
  match findColumn row field with
  | some c => lookupVal row c
  | none => ""

/-! ### Shared aggregation helpers -/

/-- The guarded percentage used by the closed-set reducers:
`total > 0 ? Math.round((count / total) * 100) : 0`. -/
def pctOf (count total : ℕ) : ℤ :=
  if 0 < total then jsRound ((count : ℚ) / (total : ℚ) * 100) else 0

/-- The specification's percentage formula: `round(count/total*100)`,
and `0` when `total = 0`. -/
def specPercentage (count total : ℕ) : ℤ :=
  if total = 0 then 0 else jsRound ((count : ℚ) / (total : ℚ) * 100)

/-- Models `obj[k] = (obj[k] || 0) + 1` on an insertion-ordered object. -/
def bumpCount {κ : Type} [DecidableEq κ] (k : κ) : List (κ × ℕ) → List (κ × ℕ)
  | [] => [(k, 1)]
  | e :: rest => if e.1 = k then (e.1, e.2 + 1) :: rest else e :: bumpCount k rest

/-- Models `obj[k] = f(obj[k])` for a key already present. -/
def bumpWith {α : Type} (f : α → α) (k : String) : List (String × α) → List (String × α)
  | [] => []
  | e :: rest => if e.1 = k then (e.1, f e.2) :: rest else e :: bumpWith f k rest

/-- Sum of the counts of an insertion-ordered counting object. -/
def sumCounts {κ : Type} (l : List (κ × ℕ)) : ℕ := (l.map (·.2)).sum

/-- Stable insertion keeping counts descending: the new element goes after
every element with a greater-or-equal key. -/
def insDesc {α : Type} (key : α → ℕ) (x : α) : List α → List α
  | [] => [x]
  | y :: ys => if key x ≤ key y then y :: insDesc key x ys else x :: y :: ys

/-- Stable sort descending by `key`, modelling `Array.prototype.sort` (stable
per ES2019) with the comparator `(a, b) => key(b) - key(a)`: for a total
preorder the stable-sorted result is unique, so any stable algorithm models it. -/
def sortDescBy {α : Type} (key : α → ℕ) (l : List α) : List α :=
  l.foldl (fun acc x => insDesc key x acc) []

/-- Deduplication keeping first occurrences with the set of already-seen
elements carried along, modelling `[...new Set(l)]`. -/
def dedupFirstAux (seen : List String) : List String → List String
  | [] => []
  | c :: cs =>
    if seen.contains c then dedupFirstAux seen cs
    else c :: dedupFirstAux (c :: seen) cs

/-- Models `[...new Set(l)]`. -/
def dedupFirst (l : List String) : List String := dedupFirstAux [] l

/-! ### Rating reducer -/

/-- `!isNaN(r) && r >= 1 && r <= 10` applied to a parse result. -/
def keepRating (o : Option ℚ) : Option ℚ :=
  match o with
  | some r => if 1 ≤ r ∧ r ≤ 10 then some r else none
  | none => none

structure RatingResult where
  average : ℚ
  count : ℕ
  distribution : List (ℤ × ℕ)
deriving DecidableEq

/-- The distribution's initial buckets: `for (let i = 1; i <= 10; i++)`. -/
def ratingBase : List (ℤ × ℕ) :=
  [(1, 0), (2, 0), (3, 0), (4, 0), (5, 0), (6, 0), (7, 0), (8, 0), (9, 0), (10, 0)]

/-- The rating result from the retained ratings; the `[]` case is the
`ratings.length === 0` early return. -/
def ratingResultOf (ratings : List ℚ) : RatingResult :=
  match ratings with
  | [] => ⟨0, 0, []⟩
  | _ :: _ =>
    let average := ratings.sum / (ratings.length : ℚ)
    let distribution := ratings.foldl (fun d r => bumpCount (jsRound r) d) ratingBase
    ⟨(jsRound (average * 10) : ℚ) / 10, ratings.length, distribution⟩

/-- The rating reducer on the per-row resolved rating values. -/
def ratingOf (vals : List String) : RatingResult :=
  ratingResultOf ((vals.map parseFloat).filterMap keepRating)

def processRating (data : List Row) : RatingResult :=
  ratingOf (data.map (fun row => getValue row Field.rating))

/-! ### Pizza popularity reducer -/

/-- Name-normalization table plus title-casing fallback. -/
def normalizePizzaName (name : String) : String :=
  let lowered := jsTrim (jsToLower name)
  let mappings : List (String × String) :=
    [("cheese", "Cheese"), ("plain cheese", "Cheese"),
     ("pepperoni", "Pepperoni"), ("pep", "Pepperoni"),
     ("chicken pesto", "Chicken Pesto"), ("pesto chicken", "Chicken Pesto"),
     ("veggie", "Veggie Supreme"), ("vegetable", "Veggie Supreme"), ("veggie supreme", "Veggie Supreme"),
     ("meat lovers", "Meat Lovers"), ("meat lover", "Meat Lovers"), ("meatlover", "Meat Lovers"),
     ("hawaiian", "Hawaiian"), ("hawaii", "Hawaiian")]
  match mappings.find? (fun e => e.1 == lowered) with
  | some e => e.2
  | none =>
    match name.toList with
    | [] => ""
    | c :: rest => String.mk (c.toUpper :: rest)

/-- The tokens a single resolved `pizzaType` value contributes:
`value.split(/[,;]/).map(p => p.trim()).filter(p => p)`, with the
`if (!value) return` guard contributing no tokens. -/
def pizzaTokens (value : String) : List String :=
  if value = "" then []
  else ((jsSplit (fun c => c == ',' || c == ';') value).map jsTrim).filter (fun p => p != "")

structure PizzaItem where
  name : String
  count : ℕ
deriving DecidableEq

structure PizzaPopularityResult where
  items : List PizzaItem
  total : ℕ
deriving DecidableEq

def processPizzaPopularity (data : List Row) : PizzaPopularityResult :=
  let vals := data.map (fun row => getValue row Field.pizzaType)
  let counts := vals.foldl
    (fun acc value => (pizzaTokens value).foldl (fun m p => bumpCount (normalizePizzaName p) m) acc) []
  let sorted := sortDescBy (·.count) (counts.map (fun e => PizzaItem.mk e.1 e.2))
  ⟨sorted, (sorted.map (·.count)).sum⟩

/-! ### Feelings reducer -/

/-- Membership in the emoji-block ranges of the extraction regex. -/
def emojiChar (c : Char) : Bool :=
  (0x1F300 ≤ c.toNat && c.toNat ≤ 0x1F9FF) ||
  (0x2600 ≤ c.toNat && c.toNat ≤ 0x26FF) ||
  (0x2700 ≤ c.toNat && c.toNat ≤ 0x27BF)

/-- The module's literal fallback string for a missing emoji; the bytes in
the source file are the mis-encoded characters U+00F0, U+0178, U+2022. -/
def fallbackEmoji : String := "ðŸ•"

/-- `value.match(emojiRegex)` keeps each code point in the ranges; the code
uses the first match, or the fallback when there is none. -/
def extractEmoji (value : String) : String :=
  match value.toList.filter emojiChar with
  | [] => fallbackEmoji
  | c :: _ => String.mk [c]

/-- `value.replace(emojiRegex, '')`. -/
def stripEmoji (s : String) : String := String.mk (s.toList.filter (fun c => !emojiChar c))

/-- Color mapping based on sentiment, in object-entry order. -/
def colorMap : List (String × String) :=
  [("joy", "#F1C40F"), ("regret", "#E67E22"), ("shame", "#9B59B6"),
   ("happy", "#F1C40F"), ("satisfied", "#2ECC71")]

/-- First keyword of `colorMap` occurring in the normalized text, else the
default `'#F4D03F'` (the loop with `break` is a first-match search). -/
def feelingColor (normalized : String) : String :=
  match colorMap.find? (fun kc => jsIncludes normalized kc.1) with
  | some kc => kc.2
  | none => "#F4D03F"

structure FeelingAcc where
  original : String
  emoji : String
  color : String
  count : ℕ
deriving DecidableEq

structure FeelingItem where
  feeling : String
  count : ℕ
  percentage : ℤ
  emoji : String
  color : String
deriving DecidableEq

structure FeelingsResult where
  items : List FeelingItem
  total : ℕ
deriving DecidableEq

/-- One iteration of the feelings `forEach`: skip empty values, create the
group entry (count 0) on first sight of the normalized key, then
`feelings[normalized].count++`. -/
def feelStep (acc : List (String × FeelingAcc)) (value : String) : List (String × FeelingAcc) :=
  if value = "" then acc
  else
    let normalized := jsTrim (jsToLower value)
    let acc1 :=
      if acc.any (fun e => e.1 == normalized) then acc
      else acc ++ [(normalized, ⟨jsTrim value, extractEmoji value, feelingColor normalized, 0⟩)]
    bumpWith (fun fa => { fa with count := fa.count + 1 }) normalized acc1

def processFeelings (data : List Row) : FeelingsResult :=
  let vals := data.map (fun row => getValue row Field.feeling)
  let state := vals.foldl feelStep []
  let total : ℕ := (state.map (·.2.count)).sum
  let items := sortDescBy (·.count) (state.map (fun e =>
    FeelingItem.mk (jsTrim (stripEmoji e.2.original)) e.2.count
      (jsRound ((e.2.count : ℚ) / (total : ℚ) * 100)) e.2.emoji e.2.color))
  ⟨items, total⟩

/-! ### Closed-set classifiers and their reducers -/

/-- The specification's ordered-rules classifier: lower-case the text,
evaluate (category, keyword-set) rules in order, return the first category
one of whose keywords occurs as a substring. -/
def classify {α : Type} (rules : List (α × List String)) (text : String) : Option α :=
  let lowered := jsToLower text
  rules.findSome? fun rule =>
    if rule.2.any (fun kw => jsIncludes lowered kw) then some rule.1 else none

inductive OACat where
  | yes | meh
deriving DecidableEq

/-- The `if / else if` keyword chain of `processOrderAgain`. -/
def classifyOrderAgain (value : String) : Option OACat :=
  let lowered := jsToLower value
  if jsIncludes lowered "yes" || jsIncludes lowered "absolutely" || jsIncludes lowered "definitely" then some .yes
  else if jsIncludes lowered "meh" || jsIncludes lowered "maybe" || jsIncludes lowered "no" then some .meh
  else none

def orderAgainRules : List (OACat × List String) :=
  [(.yes, ["yes", "absolutely", "definitely"]), (.meh, ["meh", "maybe", "no"])]

structure OACount where
  count : ℕ
  percentage : ℤ
deriving DecidableEq

structure OrderAgainResult where
  yes : OACount
  meh : OACount
  total : ℕ
deriving DecidableEq

def oaStep (acc : ℕ × ℕ) (value : String) : ℕ × ℕ :=
  if value = "" then acc
  else
    match classifyOrderAgain value with
    | some .yes => (acc.1 + 1, acc.2)
    | some .meh => (acc.1, acc.2 + 1)
    | none => acc

def processOrderAgain (data : List Row) : OrderAgainResult :=
  let p := (data.map (fun row => getValue row Field.orderAgain)).foldl oaStep (0, 0)
  let total := p.1 + p.2
  ⟨⟨p.1, pctOf p.1 total⟩, ⟨p.2, pctOf p.2 total⟩, total⟩

inductive TierCat where
  | top | solid | mid
deriving DecidableEq

/-- The `if / else if` keyword chain of `processTiers`. -/
def classifyTier (value : String) : Option TierCat :=
  let lowered := jsToLower value
  if jsIncludes lowered "top" || jsIncludes lowered "best" || jsIncludes lowered "excellent" then some .top
  else if jsIncludes lowered "solid" || jsIncludes lowered "good" || jsIncludes lowered "great" then some .solid
  else if jsIncludes lowered "mid" || jsIncludes lowered "average" || jsIncludes lowered "okay" then some .mid
  else none

def tierRules : List (TierCat × List String) :=
  [(.top, ["top", "best", "excellent"]), (.solid, ["solid", "good", "great"]),
   (.mid, ["mid", "average", "okay"])]

structure TierItem where
  name : String
  count : ℕ
  percentage : ℤ
  icon : String
  color : String
deriving DecidableEq

structure TiersResult where
  items : List TierItem
  total : ℕ
deriving DecidableEq

def tierStep (acc : ℕ × ℕ × ℕ) (value : String) : ℕ × ℕ × ℕ :=
  if value = "" then acc
  else
    match classifyTier value with
    | some .top => (acc.1 + 1, acc.2.1, acc.2.2)
    | some .solid => (acc.1, acc.2.1 + 1, acc.2.2)
    | some .mid => (acc.1, acc.2.1, acc.2.2 + 1)
    | none => acc

/-- The tier icons; the bytes in the source file are mis-encoded
(U+00F0 U+0178 then U+2020, U+00A5 U+02C6, U+00A5 U+2030). -/
def topIcon : String := "ðŸ†"
def solidIcon : String := "ðŸ¥ˆ"
def midIcon : String := "ðŸ¥‰"

def processTiers (data : List Row) : TiersResult :=
  let c := (data.map (fun row => getValue row Field.tier)).foldl tierStep (0, 0, 0)
  let total := c.1 + c.2.1 + c.2.2
  ⟨[TierItem.mk "Top Tier" c.1 (pctOf c.1 total) topIcon "#FFD700",
    TierItem.mk "Solid Choice" c.2.1 (pctOf c.2.1 total) solidIcon "#C0C0C0",
    TierItem.mk "Mid" c.2.2 (pctOf c.2.2 total) midIcon "#CD7F32"], total⟩

inductive ColdCat where
  | leftovers | desperate | never
deriving DecidableEq

/-- The `if / else if` keyword chain of `processColdPizza`. -/
def classifyColdPizza (value : String) : Option ColdCat :=
  let lowered := jsToLower value
  if jsIncludes lowered "leftover" || jsIncludes lowered "please" || jsIncludes lowered "love" || jsIncludes lowered "yes" then some .leftovers
  else if jsIncludes lowered "desperate" || jsIncludes lowered "maybe" || jsIncludes lowered "sometimes" then some .desperate
  else if jsIncludes lowered "never" || jsIncludes lowered "no" || jsIncludes lowered "chance" then some .never
  else none

def coldPizzaRules : List (ColdCat × List String) :=
  [(.leftovers, ["leftover", "please", "love", "yes"]),
   (.desperate, ["desperate", "maybe", "sometimes"]),
   (.never, ["never", "no", "chance"])]

structure ColdItem where
  label : String
  count : ℕ
  percentage : ℤ
  color : String
deriving DecidableEq

structure ColdPizzaResult where
  items : List ColdItem
  total : ℕ
deriving DecidableEq

def coldStep (acc : ℕ × ℕ × ℕ) (value : String) : ℕ × ℕ × ℕ :=
  if value = "" then acc
  else
    match classifyColdPizza value with
    | some .leftovers => (acc.1 + 1, acc.2.1, acc.2.2)
    | some .desperate => (acc.1, acc.2.1 + 1, acc.2.2)
    | some .never => (acc.1, acc.2.1, acc.2.2 + 1)
    | none => acc

def processColdPizza (data : List Row) : ColdPizzaResult :=
  let c := (data.map (fun row => getValue row Field.coldPizza)).foldl coldStep (0, 0, 0)
  let total := c.1 + c.2.1 + c.2.2
  ⟨[ColdItem.mk "Leftovers Please!" c.1 (pctOf c.1 total) "#27AE60",
    ColdItem.mk "If Desperate" c.2.1 (pctOf c.2.1 total) "#F39C12",
    ColdItem.mk "Never!" c.2.2 (pctOf c.2.2 total) "#C0392B"], total⟩

/-! ### Word-cloud reducer -/

def stopWords : List String :=
  ["the", "a", "an", "and", "or", "but", "is", "are", "was", "were", "it", "its"]

def isStopWord (word : String) : Bool := stopWords.contains (jsToLower word)

/-- The split class `[,;/\s]+` of the word-cloud reducer: maximal runs of
delimiters separate tokens, so empty fragments arise only at the ends. -/
def wcDelim (c : Char) : Bool := c == ',' || c == ';' || c == '/' || c.isWhitespace

/-- Auxiliary length bound for the run-splitting recursion. -/
theorem length_dropWhileLe {α : Type} (p : α → Bool) (l : List α) :
    (l.dropWhile p).length ≤ l.length := by
  induction l with
  | nil => simp [List.dropWhile]
  | cons c cs ih =>
    by_cases h : p c
    · simp only [List.dropWhile, h]
      exact Nat.le_succ_of_le ih
    · simp [List.dropWhile, h]

/-- Split at maximal delimiter runs (JS `split` on a `+`-quantified class). -/
def splitRunsAux (p : Char → Bool) : List Char → List Char → List String
  | [], acc => [String.mk acc.reverse]
  | c :: cs, acc =>
    if p c then String.mk acc.reverse :: splitRunsAux p (cs.dropWhile p) []
    else splitRunsAux p cs (c :: acc)
termination_by l _ => l.length
decreasing_by
  · simp only [List.length_cons]
    exact Nat.lt_succ_of_le (length_dropWhileLe p cs)
  · simp

def splitRuns (p : Char → Bool) (s : String) : List String := splitRunsAux p s.toList []

structure WordItem where
  text : String
  count : ℕ
deriving DecidableEq

/-- One iteration of the word-cloud `forEach` over a resolved value. -/
def wcStep (acc : List (String × WordItem)) (value : String) : List (String × WordItem) :=
  if value = "" then acc
  else
    let wordList := ((splitRuns wcDelim value).map (fun w => jsToLower (jsTrim w))).filter
      (fun w => decide (1 < w.length) && !isStopWord w)
    wordList.foldl (fun ws word =>
      let displayWord := ((splitRuns wcDelim value).find? (fun w => jsToLower (jsTrim w) == word)).getD word
      let ws1 :=
        if ws.any (fun e => e.1 == word) then ws
        else ws ++ [(word, ⟨jsTrim displayWord, 0⟩)]
      bumpWith (fun wi => { wi with count := wi.count + 1 }) word ws1) acc

def processWordCloud (data : List Row) : List WordItem :=
  let state := (data.map (fun row => getValue row Field.oneWord)).foldl wcStep []
  (sortDescBy (·.count) (state.map (·.2))).take 50

/-! ### Comments reducer and the Fisher–Yates shuffle -/

/-- Swap two positions of a list; indices produced by the shuffle are always
in bounds, the fallback arm is unreachable there. -/
def swapIdx {α : Type} (l : List α) (i j : ℕ) : List α :=
  match l.get? i, l.get? j with
  | some a, some b => (l.set i b).set j a
  | _, _ => l

/-- Models `Math.floor`. -/
def jsFloor (q : ℚ) : ℤ := ⌊q⌋

/-- The loop of `shuffleArray` from index `i` downwards; `rand i` models the
`Math.random()` value drawn at loop index `i`, so `j = floor(rand i * (i+1))`. -/
def fyAux {α : Type} (rand : ℕ → ℚ) : ℕ → List α → List α
  | 0, arr => arr
  | i + 1, arr =>
    fyAux rand i (swapIdx arr (i + 1) (Int.toNat (jsFloor (rand (i + 1) * ((i : ℚ) + 2)))))

/-- Fisher–Yates shuffle driven by the explicit `Math.random` stream. -/
def shuffleArray {α : Type} (rand : ℕ → ℚ) (array : List α) : List α :=
  fyAux rand (array.length - 1) array

def processComments (rand : ℕ → ℚ) (data : List Row) : List String :=
  let vals := data.map (fun row => getValue row Field.comments)
  let comments := (vals.filter (fun c => c != "" && decide (10 < (jsTrim c).length))).map jsTrim
  (shuffleArray rand (dedupFirst comments)).take 10

/-! ### Summary reducer -/

/-- Models the JS `Date` constructor for ISO-like `YYYY-MM-DD...` timestamp
strings, encoding a date as `year*10000 + month*100 + day` (monotone in the
calendar order).  JS `Date` parsing of other layouts is implementation
defined; such strings are modelled as invalid dates, which the reducer's
`isNaN` filter drops.  No claim depends on the date-range label. -/
def jsParseDate (s : String) : Option ℤ :=
  match s.toList with
  | y1 :: y2 :: y3 :: y4 :: '-' :: m1 :: m2 :: '-' :: d1 :: d2 :: _ =>
    if [y1, y2, y3, y4, m1, m2, d1, d2].all Char.isDigit then
      some ((digitsVal [y1, y2, y3, y4] * 10000 + digitsVal [m1, m2] * 100 + digitsVal [d1, d2] : ℕ) : ℤ)
    else none
  | _ => none

def monthName (m : ℕ) : String :=
  (["Jan", "Feb", "Mar", "Apr", "May", "Jun", "Jul", "Aug", "Sep", "Oct", "Nov", "Dec"].get? (m - 1)).getD "???"

/-- Models `date.toLocaleDateString('en-US', {month:'short', day:'numeric',
year:'numeric'})` on the encoded date. -/
def formatDate (d : ℤ) : String :=
  let n := d.toNat
  monthName ((n / 100) % 100) ++ " " ++ toString (n % 100) ++ ", " ++ toString (n / 10000)

structure SummaryResult where
  totalResponses : ℕ
  dateRange : String
deriving DecidableEq

def processSummary (data : List Row) : SummaryResult :=
  let timestamps := ((data.map (fun row => getValue row Field.timestamp)).filter
    (fun t => t != "")).filterMap jsParseDate
  let dateRange :=
    match timestamps with
    | [] => "Unknown"
    | t :: ts => formatDate (ts.foldl min t) ++ " - " ++ formatDate (ts.foldl max t)
  ⟨data.length, dateRange⟩

/-! ### The combined pipeline -/

structure ProcessedData where
  summary : SummaryResult
  rating : RatingResult
  pizzaPopularity : PizzaPopularityResult
  feelings : FeelingsResult
  orderAgain : OrderAgainResult
  tiers : TiersResult
  wordCloud : List WordItem
  coldPizza : ColdPizzaResult
  comments : List String
deriving DecidableEq

/-- The result object built by `processData` once the input check passed. -/
def buildResult (rand : ℕ → ℚ) (data : List Row) : ProcessedData :=
  ⟨processSummary data, processRating data, processPizzaPopularity data,
   processFeelings data, processOrderAgain data, processTiers data,
   processWordCloud data, processColdPizza data, processComments rand data⟩

/-- `processData`: `null`/`undefined` input is modelled as `none`; the only
failure is the `'No data to process'` error on absent or empty input. -/
def processData (rand : ℕ → ℚ) (rawData : Option (List Row)) : Except String ProcessedData :=
  match rawData with
  | none => .error "No data to process"
  | some data =>
    if data.length = 0 then .error "No data to process"
    else .ok (buildResult rand data)

/-! ### Percentage lemmas -/

theorem jsRoundPct_bounds {c t : ℕ} (hc : c ≤ t) (ht : 0 < t) :
    0 ≤ jsRound ((c : ℚ) / (t : ℚ) * 100) ∧ jsRound ((c : ℚ) / (t : ℚ) * 100) ≤ 100 := by
  have htq : (0 : ℚ) < (t : ℚ) := by exact_mod_cast ht
  have h1 : (0 : ℚ) ≤ (c : ℚ) / (t : ℚ) * 100 := by positivity
  have h2 : (c : ℚ) / (t : ℚ) ≤ 1 := by
    rw [div_le_one htq]
    exact_mod_cast hc
  have h3 : (c : ℚ) / (t : ℚ) * 100 ≤ 100 := by nlinarith
  exact ⟨jsRound_nonneg h1, jsRound_le_hundred h3⟩

theorem pctOf_eq_specPercentage (c t : ℕ) : pctOf c t = specPercentage c t := by
  unfold pctOf specPercentage
  rcases Nat.eq_zero_or_pos t with h | h
  · simp [h]
  · simp [h, Nat.pos_iff_ne_zero.mp h]

theorem pctOf_bounds {c t : ℕ} (hc : c ≤ t) : 0 ≤ pctOf c t ∧ pctOf c t ≤ 100 := by
  unfold pctOf
  rcases Nat.eq_zero_or_pos t with h | h
  · simp [h]
  · simpa [h] using jsRoundPct_bounds hc h

theorem pctOf_zero (c : ℕ) : pctOf c 0 = 0 := by simp [pctOf]

/-! ### Counting-object and sorting lemmas -/

theorem sumCounts_bumpCount {κ : Type} [DecidableEq κ] (k : κ) (l : List (κ × ℕ)) :
    sumCounts (bumpCount k l) = sumCounts l + 1 := by
  induction l with
  | nil => simp [bumpCount, sumCounts]
  | cons e rest ih =>
    by_cases h : e.1 = k
    · simp only [bumpCount, if_pos h, sumCounts, List.map_cons, List.sum_cons]
      omega
    · simp only [bumpCount, if_neg h, sumCounts, List.map_cons, List.sum_cons] at *
      omega

theorem mem_insDesc {α : Type} (key : α → ℕ) (x y : α) (l : List α) :
    y ∈ insDesc key x l ↔ y = x ∨ y ∈ l := by
  induction l with
  | nil => simp [insDesc]
  | cons z zs ih =>
    by_cases h : key x ≤ key z
    · simp only [insDesc, if_pos h, List.mem_cons, ih]
      tauto
    · simp only [insDesc, if_neg h, List.mem_cons]
      try tauto

theorem mem_sortDescBy_aux {α : Type} (key : α → ℕ) (l : List α) (acc : List α) (x : α)
    (hx : x ∈ l.foldl (fun acc z => insDesc key z acc) acc) : x ∈ acc ∨ x ∈ l := by
  induction l generalizing acc with
  | nil => exact Or.inl hx
  | cons z zs ih =>
    rcases ih _ hx with h | h
    · rcases (mem_insDesc key z x acc).mp h with h | h
      · exact Or.inr (by simp [h])
      · exact Or.inl h
    · exact Or.inr (List.mem_cons_of_mem _ h)

theorem mem_sortDescBy {α : Type} (key : α → ℕ) (l : List α) (x : α)
    (hx : x ∈ sortDescBy key l) : x ∈ l := by
  rcases mem_sortDescBy_aux key l [] x hx with h | h
  · simp at h
  · exact h

theorem sum_map_insDesc {α : Type} (key g : α → ℕ) (x : α) (l : List α) :
    ((insDesc key x l).map g).sum = g x + (l.map g).sum := by
  induction l with
  | nil => simp [insDesc]
  | cons z zs ih =>
    by_cases h : key x ≤ key z
    · simp only [insDesc, if_pos h, List.map_cons, List.sum_cons, ih]
      omega
    · simp [insDesc, if_neg h]

theorem sum_map_sortDescBy_aux {α : Type} (key g : α → ℕ) (l acc : List α) :
    ((l.foldl (fun acc z => insDesc key z acc) acc).map g).sum
      = (acc.map g).sum + (l.map g).sum := by
  induction l generalizing acc with
  | nil => simp
  | cons z zs ih =>
    simp only [List.foldl_cons, ih, sum_map_insDesc, List.map_cons, List.sum_cons]
    omega

theorem sum_map_sortDescBy {α : Type} (key g : α → ℕ) (l : List α) :
    ((sortDescBy key l).map g).sum = (l.map g).sum := by
  simpa using sum_map_sortDescBy_aux key g l []

/-! ### `find?` / `findSome?` helpers -/

theorem findSome_eq_none_all {α β : Type} (f : α → Option β) (l : List α)
    (h : l.findSome? f = none) : ∀ x ∈ l, f x = none := by
  induction l with
  | nil => simp
  | cons a as ih =>
    intro x hx
    rw [List.findSome?_cons] at h
    rcases List.mem_cons.mp hx with rfl | hx
    · cases hfa : f x with
      | none => rfl
      | some b => rw [hfa] at h; exact absurd h (by simp)
    · cases hfa : f a with
      | none => rw [hfa] at h; exact ih h x hx
      | some b => rw [hfa] at h; exact absurd h (by simp)

theorem findSome_all_none {α β : Type} (f : α → Option β) (l : List α)
    (h : ∀ x ∈ l, f x = none) : l.findSome? f = none := by
  induction l with
  | nil => simp
  | cons a as ih =>
    rw [List.findSome?_cons, h a (by simp)]
    exact ih (fun x hx => h x (List.mem_cons_of_mem _ hx))

/-! ### Feelings-state invariant -/

theorem mem_bumpWith {α : Type} (f : α → α) (k : String) (l : List (String × α))
    (e : String × α) (he : e ∈ bumpWith f k l) :
    e ∈ l ∨ ∃ e' ∈ l, e = (e'.1, f e'.2) := by
  induction l with
  | nil => simp [bumpWith] at he
  | cons z zs ih =>
    by_cases h : z.1 = k
    · simp only [bumpWith, if_pos h, List.mem_cons] at he
      rcases he with he | he
      · exact Or.inr ⟨z, by simp, he⟩
      · exact Or.inl (List.mem_cons_of_mem _ he)
    · simp only [bumpWith, if_neg h, List.mem_cons] at he
      rcases he with he | he
      · exact Or.inl (by simp [he])
      · rcases ih he with h1 | ⟨e', he', h2⟩
        · exact Or.inl (List.mem_cons_of_mem _ h1)
        · exact Or.inr ⟨e', List.mem_cons_of_mem _ he', h2⟩

theorem bumpWith_append_fresh {α : Type} (f : α → α) (k : String) (l : List (String × α))
    (x : α) (h : ∀ e ∈ l, e.1 ≠ k) :
    bumpWith f k (l ++ [(k, x)]) = l ++ [(k, f x)] := by
  induction l with
  | nil => simp [bumpWith]
  | cons z zs ih =>
    have hz : z.1 ≠ k := h z (by simp)
    simp only [List.cons_append, bumpWith, if_neg hz, List.append_eq]
    rw [ih (fun e he => h e (List.mem_cons_of_mem _ he))]

/-- Every group of the feelings accumulation object has been counted at
least once (the entry is created with count 0 and immediately bumped). -/
theorem feelStep_counts_pos (acc : List (String × FeelingAcc)) (value : String)
    (hacc : ∀ e ∈ acc, 1 ≤ e.2.count) :
    ∀ e ∈ feelStep acc value, 1 ≤ e.2.count := by
  intro e he
  simp only [feelStep] at he
  by_cases hv : value = ""
  · rw [if_pos hv] at he; exact hacc e he
  · rw [if_neg hv] at he
    by_cases hk : (acc.any fun e => e.1 == jsTrim (jsToLower value)) = true
    · rw [if_pos hk] at he
      rcases mem_bumpWith _ _ _ _ he with h1 | ⟨e', he', h2⟩
      · exact hacc e h1
      · have := hacc e' he'
        simp only [h2]
        omega
    · rw [if_neg hk] at he
      have hfresh : ∀ e ∈ acc, e.1 ≠ jsTrim (jsToLower value) := by
        intro e' he'
        have := List.any_eq_false.mp (Bool.eq_false_iff.mpr hk) e' he'
        simpa using this
      rw [bumpWith_append_fresh _ _ _ _ hfresh] at he
      rcases List.mem_append.mp he with h1 | h1
      · exact hacc e h1
      · simp only [List.mem_singleton] at h1
        simp [h1]

theorem feelFold_counts_pos (vals : List String) (acc : List (String × FeelingAcc))
    (hacc : ∀ e ∈ acc, 1 ≤ e.2.count) :
    ∀ e ∈ vals.foldl feelStep acc, 1 ≤ e.2.count := by
  induction vals generalizing acc with
  | nil => exact hacc
  | cons v vs ih => exact ih _ (feelStep_counts_pos acc v hacc)

/-! ### Rating lemmas -/

theorem keepRating_mem {vals : List String} {r : ℚ}
    (hr : r ∈ (vals.map parseFloat).filterMap keepRating) : 1 ≤ r ∧ r ≤ 10 := by
  rcases List.mem_filterMap.mp hr with ⟨o, _, ho⟩
  cases o with
  | none => simp [keepRating] at ho
  | some r' =>
    by_cases h : 1 ≤ r' ∧ r' ≤ 10
    · simp only [keepRating, if_pos h, Option.some_inj] at ho
      exact ho ▸ h
    · simp [keepRating, if_neg h] at ho

theorem filterMap_keep_length {α β : Type} (g : α → Option β) (l : List α) :
    (l.filterMap g).length = l.countP (fun v => (g v).isSome) := by
  induction l with
  | nil => simp
  | cons a as ih =>
    cases h : g a with
    | none => simp [List.filterMap_cons, h, List.countP_cons, ih]
    | some b => simp [List.filterMap_cons, h, List.countP_cons, ih]

theorem rating_sum_bounds (l : List ℚ) (h : ∀ r ∈ l, 1 ≤ r ∧ r ≤ 10) :
    (l.length : ℚ) ≤ l.sum ∧ l.sum ≤ 10 * (l.length : ℚ) := by
  induction l with
  | nil => simp
  | cons r rs ih =>
    have hr := h r (by simp)
    have ihs := ih (fun x hx => h x (List.mem_cons_of_mem _ hx))
    simp only [List.sum_cons, List.length_cons]
    push_cast
    constructor <;> linarith [hr.1, hr.2, ihs.1, ihs.2]

theorem sumCounts_ratingFold (ratings : List ℚ) (d : List (ℤ × ℕ)) :
    sumCounts (ratings.foldl (fun d r => bumpCount (jsRound r) d) d)
      = sumCounts d + ratings.length := by
  induction ratings generalizing d with
  | nil => simp
  | cons r rs ih =>
    simp only [List.foldl_cons, ih, sumCounts_bumpCount, List.length_cons]
    omega

theorem ratingResultOf_count (l : List ℚ) : (ratingResultOf l).count = l.length := by
  cases l <;> rfl

theorem ratingResultOf_avg_bounds (l : List ℚ) (hb : ∀ r ∈ l, 1 ≤ r ∧ r ≤ 10) (hne : l ≠ []) :
    1 ≤ (ratingResultOf l).average ∧ (ratingResultOf l).average ≤ 10 := by
  cases l with
  | nil => exact absurd rfl hne
  | cons r rs =>
    have hlenpos : 0 < (r :: rs).length := by simp
    have hbounds := rating_sum_bounds (r :: rs) hb
    have hlq : (0 : ℚ) < ((r :: rs).length : ℚ) := by exact_mod_cast hlenpos
    have havg1 : 1 ≤ (r :: rs).sum / ((r :: rs).length : ℚ) := by
      rw [le_div_iff₀ hlq]
      linarith [hbounds.1]
    have havg2 : (r :: rs).sum / ((r :: rs).length : ℚ) ≤ 10 := by
      rw [div_le_iff₀ hlq]
      linarith [hbounds.2]
    have hj1 : (10 : ℤ) ≤ jsRound ((r :: rs).sum / ((r :: rs).length : ℚ) * 10) := by
      apply jsRound_ge
      push_cast
      nlinarith
    have hj2 : jsRound ((r :: rs).sum / ((r :: rs).length : ℚ) * 10) ≤ 100 := by
      apply jsRound_le_hundred
      nlinarith
    constructor
    · show (1 : ℚ) ≤ (jsRound ((r :: rs).sum / ((r :: rs).length : ℚ) * 10) : ℚ) / 10
      rw [le_div_iff₀ (by norm_num : (0:ℚ) < 10)]
      have : ((10 : ℤ) : ℚ) ≤ (jsRound ((r :: rs).sum / ((r :: rs).length : ℚ) * 10) : ℚ) := by
        exact_mod_cast hj1
      linarith
    · show (jsRound ((r :: rs).sum / ((r :: rs).length : ℚ) * 10) : ℚ) / 10 ≤ 10
      rw [div_le_iff₀ (by norm_num : (0:ℚ) < 10)]
      have : (jsRound ((r :: rs).sum / ((r :: rs).length : ℚ) * 10) : ℚ) ≤ ((100 : ℤ) : ℚ) := by
        exact_mod_cast hj2
      linarith

theorem ratingResultOf_distSum (l : List ℚ) :
    sumCounts (ratingResultOf l).distribution = l.length := by
  cases l with
  | nil => rfl
  | cons r rs =>
    show sumCounts ((r :: rs).foldl (fun d r => bumpCount (jsRound r) d) ratingBase) = _
    rw [sumCounts_ratingFold]
    simp [sumCounts, ratingBase]

theorem ratingResultOf_empty (l : List ℚ) (h : (ratingResultOf l).count = 0) :
    ratingResultOf l = ⟨0, 0, []⟩ := by
  cases l with
  | nil => rfl
  | cons r rs => rw [ratingResultOf_count] at h; simp at h

theorem keepRating_isSome (v : String) :
    (keepRating (parseFloat v)).isSome =
      (match parseFloat v with
       | some r => decide (1 ≤ r ∧ r ≤ 10)
       | none => false) := by
  cases h : parseFloat v with
  | none => simp [keepRating]
  | some r =>
    by_cases hr : 1 ≤ r ∧ r ≤ 10
    · simp [keepRating, hr]
    · simp [keepRating, hr]

/-! ### Pizza-popularity total lemmas -/

theorem sumCounts_tokenFold (tokens : List String) (m : List (String × ℕ)) :
    sumCounts (tokens.foldl (fun m p => bumpCount (normalizePizzaName p) m) m)
      = sumCounts m + tokens.length := by
  induction tokens generalizing m with
  | nil => simp
  | cons t ts ih =>
    simp only [List.foldl_cons, ih, sumCounts_bumpCount, List.length_cons]
    omega

theorem sumCounts_pizzaFold (vals : List String) (acc : List (String × ℕ)) :
    sumCounts (vals.foldl
      (fun acc value => (pizzaTokens value).foldl (fun m p => bumpCount (normalizePizzaName p) m) acc) acc)
      = sumCounts acc + (vals.map (fun v => (pizzaTokens v).length)).sum := by
  induction vals generalizing acc with
  | nil => simp
  | cons v vs ih =>
    simp only [List.foldl_cons, ih, sumCounts_tokenFold, List.map_cons, List.sum_cons]
    omega

/-- The popularity total is the number of tokens contributed across all rows. -/
theorem pizza_total_eq_tokens (data : List Row) :
    (processPizzaPopularity data).total
      = (data.map (fun row => (pizzaTokens (getValue row Field.pizzaType)).length)).sum := by
  unfold processPizzaPopularity
  dsimp only
  rw [sum_map_sortDescBy]
  rw [List.map_map]
  show sumCounts _ = _
  rw [sumCounts_pizzaFold]
  simp only [sumCounts, List.map_nil, List.sum_nil, Nat.zero_add, List.map_map]
  rfl

theorem length_le_sum_of_all_pos (l : List ℕ) (h : ∀ x ∈ l, 1 ≤ x) : l.length ≤ l.sum := by
  induction l with
  | nil => simp
  | cons x xs ih =>
    have := h x (by simp)
    have := ih (fun y hy => h y (List.mem_cons_of_mem _ hy))
    simp only [List.length_cons, List.sum_cons]
    omega

theorem sum_of_all_one (l : List ℕ) (h : ∀ x ∈ l, x = 1) : l.sum = l.length := by
  induction l with
  | nil => simp
  | cons x xs ih =>
    have := h x (by simp)
    have := ih (fun y hy => h y (List.mem_cons_of_mem _ hy))
    simp only [List.length_cons, List.sum_cons]
    omega

theorem keepRating_none : keepRating none = none := rfl

/-! ## Claim theorems -/

/-- C1: `processData` raises the `'No data to process'` error exactly when
the input row sequence is null (`none`) or empty; for every non-empty input
it returns the complete result object.  Every reducer of the embedding is a
total function, mirroring that no row-level anomaly (missing column,
unparseable number, unmatched category, short or duplicate comment) raises:
each such row is only excluded from the aggregates it would have fed. -/
theorem processData_error_characterization (rand : ℕ → ℚ) (input : Option (List Row)) :
    (processData rand input = .error "No data to process" ↔ input = none ∨ input = some []) ∧
    (∀ data, input = some data → data ≠ [] →
      processData rand input = .ok (buildResult rand data)) := by
  constructor
  · cases input with
    | none => simp [processData]
    | some data =>
      cases data with
      | nil => simp [processData]
      | cons r rs => simp [processData]
  · rintro data rfl hne
    simp [processData, List.length_eq_zero, hne]

/-- Witness for C1 at concrete inputs: `none` errors, a one-row input
returns the full result object. -/
theorem processData_error_characterization_witness :
    processData (fun _ => 0) none = .error "No data to process" ∧
    processData (fun _ => 0) (some [[("Rating", "8")]])
      = .ok (buildResult (fun _ => 0) [[("Rating", "8")]]) :=
  ⟨(processData_error_characterization (fun _ => 0) none).1.mpr (Or.inl rfl),
   (processData_error_characterization (fun _ => 0) (some [[("Rating", "8")]])).2 _ rfl
     (by simp)⟩

/-- C3 (amended): if no lower-cased alias of the field occurs in any
lower-cased column name and no lower-cased column name occurs in any
lower-cased alias, resolution returns not-found; and for a row none of
whose column names is the empty string, if some column name is exactly a
configured alias string, resolution returns some column — not necessarily
that one, since an earlier alias (or an earlier key under the same alias)
can match a different column first.  Both restrictions are forced by the
counterexample: an empty-string column name matches every alias yet is
falsy, ending that alias's scan, so it can defeat resolution entirely. -/
theorem findColumn_resolution (row : Row) (field : Field) :
    ((∀ m ∈ COLUMN_MAPPINGS field, ∀ k ∈ row.map Prod.fst,
        ¬Occurs (jsToLower m).toList (jsToLower k).toList ∧
        ¬Occurs (jsToLower k).toList (jsToLower m).toList) →
      findColumn row field = none) ∧
    ((∀ k ∈ row.map Prod.fst, k ≠ "") →
      (∃ k ∈ row.map Prod.fst, k ∈ COLUMN_MAPPINGS field) →
      ∃ c, findColumn row field = some c) := by
  constructor
  · intro h
    unfold findColumn
    apply findSome_all_none
    intro m hm
    have hfind : (row.map Prod.fst).find? (fun k => colMatch m k) = none := by
      rw [List.find?_eq_none]
      intro k hk
      have h1 := (h m hm k hk).1
      have h2 := (h m hm k hk).2
      simp only [colMatch, Bool.or_eq_true, jsIncludes_iff]
      push_neg
      exact ⟨h1, h2⟩
    rw [hfind]
  · intro hne ⟨k, hk, hkm⟩
    cases hfc : findColumn row field with
    | some c => exact ⟨c, rfl⟩
    | none =>
      exfalso
      unfold findColumn at hfc
      have := findSome_eq_none_all _ _ hfc k hkm
      cases hfind : (row.map Prod.fst).find? (fun x => colMatch k x) with
      | none =>
        rw [List.find?_eq_none] at hfind
        apply hfind k hk
        simp only [colMatch, Bool.or_eq_true, jsIncludes_iff]
        exact Or.inl (occurs_refl _)
      | some k' =>
        rw [hfind] at this
        have hk' : k' ∈ row.map Prod.fst := List.mem_of_find?_eq_some hfind
        have : (if k' = "" then none else some k') = (none : Option String) := this
        rw [if_neg (hne k' hk')] at this
        exact absurd this (by simp)

/-- Counterexample to C3 as stated, in two parts.  First, the column
`"Rating"` is exactly the configured alias `'Rating'` of the rating field,
yet resolution returns the other column `"xx rating yy"`, which matches the
same alias earlier in key order.  Second, next to an empty-string column
name the exact-alias column `"Rating"` does not make resolution succeed at
all: the empty key matches every alias (the empty string is a substring of
anything) but is falsy, so `if (found) return found` ends each alias's scan
and `findColumn` returns not-found. -/
theorem findColumn_exact_alias_cex :
    (("Rating", "b") ∈ ([("xx rating yy", "a"), ("Rating", "b")] : Row) ∧
     "Rating" ∈ COLUMN_MAPPINGS Field.rating ∧
     findColumn [("xx rating yy", "a"), ("Rating", "b")] Field.rating = some "xx rating yy" ∧
     findColumn [("xx rating yy", "a"), ("Rating", "b")] Field.rating ≠ some "Rating") ∧
    (("Rating", "8") ∈ ([("", "x"), ("Rating", "8")] : Row) ∧
     "Rating" ∈ COLUMN_MAPPINGS Field.rating ∧
     findColumn [("", "x"), ("Rating", "8")] Field.rating = none) := by
  decide

/-- Witness for C3 at concrete inputs: an unrelated column resolves to
not-found, an exact-alias column resolves to some column. -/
theorem findColumn_resolution_witness :
    findColumn [("zzz", "1")] Field.rating = none ∧
    ∃ c, findColumn [("Rating", "8")] Field.rating = some c :=
  ⟨(findColumn_resolution [("zzz", "1")] Field.rating).1 (by decide),
   (findColumn_resolution [("Rating", "8")] Field.rating).2 (by decide) (by decide)⟩

/-- C4: each closed-set classifier is exactly the ordered first-match
keyword classifier over its rule list — so a text with keywords of two
categories goes to the earlier rule — and `"Sometimes, if desperate"` is
classified as If Desperate (its `"desperate"` keyword fires before the
later rule containing `"sometimes"` is reached). -/
theorem classifier_first_match (s : String) :
    classifyOrderAgain s = classify orderAgainRules s ∧
    classifyTier s = classify tierRules s ∧
    classifyColdPizza s = classify coldPizzaRules s ∧
    classifyColdPizza "Sometimes, if desperate" = some ColdCat.desperate := by
  refine ⟨?_, ?_, ?_, by decide⟩
  · simp only [classifyOrderAgain, classify, orderAgainRules, List.findSome?_cons,
      List.any_cons, List.any_nil, Bool.or_false]
    split_ifs <;> simp_all
  · simp only [classifyTier, classify, tierRules, List.findSome?_cons,
      List.any_cons, List.any_nil, Bool.or_false]
    split_ifs <;> simp_all
  · simp only [classifyColdPizza, classify, coldPizzaRules, List.findSome?_cons,
      List.any_cons, List.any_nil, Bool.or_false]
    split_ifs <;> simp_all

/-- C6 (amended): the popularity total is at least the row count when every
row contributes at least one token and some row holds a multi-select value
(two or more tokens); it equals the row count when every row contributes
exactly one token.  Rows with an empty or unresolved pizza-type value
contribute zero tokens, so without the first condition the total can drop
below the row count. -/
theorem pizza_total_bounds (data : List Row) :
    ((∀ row ∈ data, 1 ≤ (pizzaTokens (getValue row Field.pizzaType)).length) →
      (∃ row ∈ data, 2 ≤ (pizzaTokens (getValue row Field.pizzaType)).length) →
      data.length ≤ (processPizzaPopularity data).total) ∧
    ((∀ row ∈ data, (pizzaTokens (getValue row Field.pizzaType)).length = 1) →
      (processPizzaPopularity data).total = data.length) := by
  constructor
  · intro h1 _
    rw [pizza_total_eq_tokens]
    have := length_le_sum_of_all_pos (data.map (fun row => (pizzaTokens (getValue row Field.pizzaType)).length))
      (by
        intro x hx
        rcases List.mem_map.mp hx with ⟨row, hrow, rfl⟩
        exact h1 row hrow)
    simpa using this
  · intro h1
    rw [pizza_total_eq_tokens]
    have := sum_of_all_one (data.map (fun row => (pizzaTokens (getValue row Field.pizzaType)).length))
      (by
        intro x hx
        rcases List.mem_map.mp hx with ⟨row, hrow, rfl⟩
        exact h1 row hrow)
    simpa using this

/-- Counterexample to C6 as stated: one row holds the multi-select value
`"a,b"` (two tokens), but two further rows hold empty values, so the total
2 is below the row count 3. -/
theorem pizza_total_cex :
    2 ≤ (pizzaTokens (getValue [("Pizza", "a,b")] Field.pizzaType)).length ∧
    (processPizzaPopularity [[("Pizza", "a,b")], [("Pizza", "")], [("Pizza", "")]]).total = 2 ∧
    ([[("Pizza", "a,b")], [("Pizza", "")], [("Pizza", "")]] : List Row).length = 3 := by
  decide

/-- Witness for C6 at concrete inputs: a multi-select row pushes the total
to at least the row count; single-token rows give total = row count. -/
theorem pizza_total_bounds_witness :
    ([[("Pizza", "Cheese, Pepperoni")], [("Pizza", "Hawaiian")]] : List Row).length
      ≤ (processPizzaPopularity [[("Pizza", "Cheese, Pepperoni")], [("Pizza", "Hawaiian")]]).total ∧
    (processPizzaPopularity [[("Pizza", "Cheese")]]).total
      = ([[("Pizza", "Cheese")]] : List Row).length :=
  ⟨(pizza_total_bounds [[("Pizza", "Cheese, Pepperoni")], [("Pizza", "Hawaiian")]]).1
      (by decide) (by decide),
   (pizza_total_bounds [[("Pizza", "Cheese")]]).2 (by decide)⟩

/-- C7: on the rows `[{rating:"8"}, {rating:"10"}, {rating:"bad"}]` the
rating reducer yields average 9.0 and count 2, and its distribution object
(initialized with every bucket 1..10 at zero) carries value 1 at buckets 8
and 10 and 0 elsewhere — i.e. it is the mapping `{8:1, 10:1}` extended by
the explicit zero buckets. -/
theorem rating_scenario_one :
    processRating [[("rating", "8")], [("rating", "10")], [("rating", "bad")]]
      = ⟨9, 2, [(1, 0), (2, 0), (3, 0), (4, 0), (5, 0), (6, 0), (7, 0), (8, 1), (9, 0), (10, 1)]⟩ := by
  have hv : ([[("rating", "8")], [("rating", "10")], [("rating", "bad")]] : List Row).map
      (fun row => getValue row Field.rating) = ["8", "10", "bad"] := by decide
  have hp8 : parseFloat "8" = some 8 := by
    simp [parseFloat, List.dropWhile, List.takeWhile, digitsVal]
  have hp10 : parseFloat "10" = some 10 := by
    simp [parseFloat, List.dropWhile, List.takeWhile, digitsVal]
  have hpb : parseFloat "bad" = none := by
    simp [parseFloat, List.dropWhile, List.takeWhile, digitsVal]
  have hk8 : keepRating (some 8) = some 8 := by norm_num [keepRating]
  have hk10 : keepRating (some 10) = some 10 := by norm_num [keepRating]
  have hrat : ((["8", "10", "bad"].map parseFloat).filterMap keepRating) = [(8 : ℚ), 10] := by
    simp only [List.map_cons, List.map_nil, hp8, hp10, hpb, List.filterMap_cons, hk8, hk10,
      keepRating_none, List.filterMap_nil]
  have hr8 : jsRound (8 : ℚ) = 8 := by norm_num [jsRound]
  have hr10 : jsRound (10 : ℚ) = 10 := by norm_num [jsRound]
  unfold processRating ratingOf
  rw [hv, hrat]
  unfold ratingResultOf
  refine congrArg₂ (RatingResult.mk · 2 ·) ?_ ?_
  · norm_num [jsRound]
  · simp only [List.foldl_cons, List.foldl_nil, hr8, hr10]
    norm_num [bumpCount, ratingBase]

/-- C8: a row with feeling value `"😍 Joy"` produces a feelings item whose
display label is `"Joy"` (emoji stripped), whose emoji is `"😍"` (first
code point in the emoji-block ranges), and whose color is `"#F1C40F"` (the
`joy` keyword of the color table). -/
theorem feelings_scenario_three :
    ∃ it ∈ (processFeelings [[("Feeling", "😍 Joy")]]).items,
      it.feeling = "Joy" ∧ it.emoji = "😍" ∧ it.color = "#F1C40F" := by
  decide

/-- C5: `rating.count` is the number of rows whose rating value parses to a
rational in the closed range `[1, 10]`; when the count is positive the
(rounded) average lies in `[1, 10]` and the distribution buckets sum to the
count; an empty retained set yields `{average: 0, count: 0, distribution: {}}`. -/
theorem rating_reducer_spec (data : List Row) :
    ((processRating data).count = data.countP (fun row =>
        match parseFloat (getValue row Field.rating) with
        | some r => decide (1 ≤ r ∧ r ≤ 10)
        | none => false)) ∧
    (0 < (processRating data).count →
      1 ≤ (processRating data).average ∧ (processRating data).average ≤ 10 ∧
      sumCounts (processRating data).distribution = (processRating data).count) ∧
    ((processRating data).count = 0 → processRating data = ⟨0, 0, []⟩) := by
  have hP : processRating data
      = ratingResultOf (((data.map (fun row => getValue row Field.rating)).map
          parseFloat).filterMap keepRating) := rfl
  set rats := ((data.map (fun row => getValue row Field.rating)).map
    parseFloat).filterMap keepRating with hrats
  refine ⟨?_, ?_, ?_⟩
  · rw [hP, ratingResultOf_count, hrats, filterMap_keep_length, List.countP_map, List.countP_map]
    apply List.countP_congr
    intro row _
    simp only [Function.comp]
    rw [keepRating_isSome]
  · intro hpos
    have hne : rats ≠ [] := by
      intro h0
      rw [hP, ratingResultOf_count, h0] at hpos
      simp at hpos
    have hb : ∀ r ∈ rats, 1 ≤ r ∧ r ≤ 10 := fun r hr => keepRating_mem (hrats ▸ hr)
    have havg := ratingResultOf_avg_bounds rats hb hne
    refine ⟨hP ▸ havg.1, hP ▸ havg.2, ?_⟩
    rw [hP, ratingResultOf_distSum, ratingResultOf_count]
  · intro h0
    rw [hP] at h0 ⊢
    exact ratingResultOf_empty _ h0

/-- Witness for C5 at concrete inputs: one parseable in-range rating gives
in-range average and matching bucket sum; an unparseable set yields the
empty result. -/
theorem rating_reducer_spec_witness :
    (1 ≤ (processRating [[("Rating", "8")]]).average ∧
     (processRating [[("Rating", "8")]]).average ≤ 10 ∧
     sumCounts (processRating [[("Rating", "8")]]).distribution
       = (processRating [[("Rating", "8")]]).count) ∧
    processRating [[("Rating", "")]] = ⟨0, 0, []⟩ := by
  have hc : 0 < (processRating [[("Rating", "8")]]).count := by
    have hv : (([[("Rating", "8")]] : List Row).map (fun row => getValue row Field.rating))
        = ["8"] := by decide
    have hp8 : parseFloat "8" = some 8 := by
      simp [parseFloat, List.dropWhile, List.takeWhile, digitsVal]
    have hk8 : keepRating (some 8) = some 8 := by norm_num [keepRating]
    unfold processRating ratingOf
    rw [hv]
    simp [hp8, hk8, ratingResultOf_count]
  have h0 : (processRating [[("Rating", "")]]).count = 0 := by
    have hv : (([[("Rating", "")]] : List Row).map (fun row => getValue row Field.rating))
        = [""] := by decide
    have hpe : parseFloat "" = none := by
      simp [parseFloat, List.dropWhile, List.takeWhile]
    unfold processRating ratingOf
    rw [hv]
    simp [hpe, ratingResultOf_count, keepRating_none]
  exact ⟨(rating_reducer_spec [[("Rating", "8")]]).2.1 hc,
    (rating_reducer_spec [[("Rating", "")]]).2.2 h0⟩

/-- C2: every percentage field of the closed-set reducers and of the
feelings reducer is an integer in `0..100` equal to the specification
formula `round(count/total*100)` over that reducer's own total, and is `0`
whenever that total is `0` (for feelings the total is positive as soon as
any item exists, so the unguarded division never divides by zero). -/
theorem percentage_fields_valid (data : List Row) :
    (0 ≤ (processOrderAgain data).yes.percentage ∧ (processOrderAgain data).yes.percentage ≤ 100 ∧
     (processOrderAgain data).yes.percentage
       = specPercentage (processOrderAgain data).yes.count (processOrderAgain data).total ∧
     0 ≤ (processOrderAgain data).meh.percentage ∧ (processOrderAgain data).meh.percentage ≤ 100 ∧
     (processOrderAgain data).meh.percentage
       = specPercentage (processOrderAgain data).meh.count (processOrderAgain data).total ∧
     ((processOrderAgain data).total = 0 →
       (processOrderAgain data).yes.percentage = 0 ∧ (processOrderAgain data).meh.percentage = 0)) ∧
    (∀ it ∈ (processTiers data).items,
      0 ≤ it.percentage ∧ it.percentage ≤ 100 ∧
      it.percentage = specPercentage it.count (processTiers data).total ∧
      ((processTiers data).total = 0 → it.percentage = 0)) ∧
    (∀ it ∈ (processColdPizza data).items,
      0 ≤ it.percentage ∧ it.percentage ≤ 100 ∧
      it.percentage = specPercentage it.count (processColdPizza data).total ∧
      ((processColdPizza data).total = 0 → it.percentage = 0)) ∧
    (∀ it ∈ (processFeelings data).items,
      0 ≤ it.percentage ∧ it.percentage ≤ 100 ∧
      it.percentage = specPercentage it.count (processFeelings data).total ∧
      ((processFeelings data).total = 0 → it.percentage = 0)) := by
  refine ⟨?_, ?_, ?_, ?_⟩
  · unfold processOrderAgain
    dsimp only
    refine ⟨(pctOf_bounds (Nat.le_add_right _ _)).1, (pctOf_bounds (Nat.le_add_right _ _)).2,
      pctOf_eq_specPercentage _ _,
      (pctOf_bounds (Nat.le_add_left _ _)).1, (pctOf_bounds (Nat.le_add_left _ _)).2,
      pctOf_eq_specPercentage _ _, ?_⟩
    intro h
    rw [h]
    exact ⟨pctOf_zero _, pctOf_zero _⟩
  · unfold processTiers
    dsimp only
    intro it hit
    simp only [List.mem_cons, List.not_mem_nil, or_false] at hit
    rcases hit with rfl | rfl | rfl <;>
      (dsimp only;
       exact ⟨(pctOf_bounds (by omega)).1, (pctOf_bounds (by omega)).2,
         pctOf_eq_specPercentage _ _, fun h => by rw [h]; exact pctOf_zero _⟩)
  · unfold processColdPizza
    dsimp only
    intro it hit
    simp only [List.mem_cons, List.not_mem_nil, or_false] at hit
    rcases hit with rfl | rfl | rfl <;>
      (dsimp only;
       exact ⟨(pctOf_bounds (by omega)).1, (pctOf_bounds (by omega)).2,
         pctOf_eq_specPercentage _ _, fun h => by rw [h]; exact pctOf_zero _⟩)
  · have hinv := feelFold_counts_pos (data.map (fun row => getValue row Field.feeling)) []
      (by simp)
    unfold processFeelings
    dsimp only
    intro it hit
    rcases List.mem_map.mp (mem_sortDescBy _ _ _ hit) with ⟨e, he, rfl⟩
    dsimp only
    have h1 : 1 ≤ e.2.count := hinv e he
    have hle : e.2.count ≤ ((data.map (fun row => getValue row Field.feeling)).foldl feelStep []
        |>.map (fun x => x.2.count)).sum :=
      List.single_le_sum (fun x _ => Nat.zero_le x) _ (List.mem_map_of_mem _ he)
    have htpos : 0 < ((data.map (fun row => getValue row Field.feeling)).foldl feelStep []
        |>.map (fun x => x.2.count)).sum := lt_of_lt_of_le h1 hle
    refine ⟨(jsRoundPct_bounds hle htpos).1, (jsRoundPct_bounds hle htpos).2, ?_, ?_⟩
    · unfold specPercentage
      rw [if_neg (Nat.pos_iff_ne_zero.mp htpos)]
    · intro h
      omega

/-- Witness for C2 at a concrete input: the first tiers item of a one-row
input satisfies the bounds and the spec percentage formula. -/
theorem percentage_fields_valid_witness :
    ∃ it, it ∈ (processTiers [[("Tier", "top")]]).items ∧
      0 ≤ it.percentage ∧ it.percentage ≤ 100 ∧
      it.percentage = specPercentage it.count (processTiers [[("Tier", "top")]]).total := by
  have h : 0 < (processTiers [[("Tier", "top")]]).items.length := by decide
  have hm := List.get_mem (processTiers [[("Tier", "top")]]).items 0 h
  have hv := (percentage_fields_valid [[("Tier", "top")]]).2.1 _ hm
  exact ⟨_, hm, hv.1, hv.2.1, hv.2.2.1⟩

/-- C9: every output field except `comments` is a deterministic function of
the rows — two runs with different `Math.random` streams agree on summary,
rating, pizzaPopularity, feelings, orderAgain, tiers, wordCloud and
coldPizza — while the shuffled `comments` field can genuinely differ, shown
at a concrete two-comment input with two random streams. -/
theorem pipeline_deterministic_except_comments :
    (∀ (r1 r2 : ℕ → ℚ) (data : List Row),
      (buildResult r1 data).summary = (buildResult r2 data).summary ∧
      (buildResult r1 data).rating = (buildResult r2 data).rating ∧
      (buildResult r1 data).pizzaPopularity = (buildResult r2 data).pizzaPopularity ∧
      (buildResult r1 data).feelings = (buildResult r2 data).feelings ∧
      (buildResult r1 data).orderAgain = (buildResult r2 data).orderAgain ∧
      (buildResult r1 data).tiers = (buildResult r2 data).tiers ∧
      (buildResult r1 data).wordCloud = (buildResult r2 data).wordCloud ∧
      (buildResult r1 data).coldPizza = (buildResult r2 data).coldPizza) ∧
    (buildResult (fun _ => 0) [[("Elaborate", "aaaaaaaaaaaa")], [("Elaborate", "bbbbbbbbbbbb")]]).comments
      ≠ (buildResult (fun _ => (1 : ℚ)/2)
          [[("Elaborate", "aaaaaaaaaaaa")], [("Elaborate", "bbbbbbbbbbbb")]]).comments := by
  constructor
  · intro r1 r2 data
    exact ⟨rfl, rfl, rfl, rfl, rfl, rfl, rfl, rfl⟩
  · show processComments _ _ ≠ processComments _ _
    have hv : (([[("Elaborate", "aaaaaaaaaaaa")], [("Elaborate", "bbbbbbbbbbbb")]] : List Row).map
        (fun row => getValue row Field.comments)) = ["aaaaaaaaaaaa", "bbbbbbbbbbbb"] := by decide
    unfold processComments
    rw [hv]
    dsimp only
    have hd : dedupFirst (((["aaaaaaaaaaaa", "bbbbbbbbbbbb"] : List String).filter
        (fun c => c != "" && decide (10 < (jsTrim c).length))).map jsTrim)
        = ["aaaaaaaaaaaa", "bbbbbbbbbbbb"] := by decide
    rw [hd]
    show (shuffleArray (fun _ => 0) ["aaaaaaaaaaaa", "bbbbbbbbbbbb"]).take 10
        ≠ (shuffleArray (fun _ => (1 : ℚ)/2) ["aaaaaaaaaaaa", "bbbbbbbbbbbb"]).take 10
    unfold shuffleArray
    have h1 : Int.toNat (jsFloor ((0 : ℚ) * ((0 : ℕ) + 2))) = 0 := by norm_num [jsFloor]
    have h2 : Int.toNat (jsFloor ((1 : ℚ)/2 * ((0 : ℕ) + 2))) = 1 := by norm_num [jsFloor]
    simp only [List.length_cons, List.length_nil, fyAux, h1, h2]
    decide

/-- C10 (amended): when no column resolves, `getValue` substitutes the
empty string, exactly as it does when the resolved column holds the empty
string; and the whole pipeline factors through the per-field resolved
values, so two inputs yielding the same `getValue` image for every logical
field give identical results.  A row merely lacking a field's column is
NOT generally interchangeable with one carrying an empty-valued extra
column, because the added column can capture other fields' resolution. -/
theorem getValue_missing_and_factorization :
    (∀ (row : Row) (f : Field), findColumn row f = none → getValue row f = "") ∧
    (∀ (row : Row) (f : Field) (c : String), findColumn row f = some c →
      lookupVal row c = "" → getValue row f = "") ∧
    (∀ (rand : ℕ → ℚ) (d d' : List Row),
      (∀ f, d.map (fun row => getValue row f) = d'.map (fun row => getValue row f)) →
      buildResult rand d = buildResult rand d') := by
  refine ⟨?_, ?_, ?_⟩
  · intro row f h
    unfold getValue
    rw [h]
  · intro row f c h hc
    unfold getValue
    rw [h]
    dsimp only
    exact hc
  · intro rand d d' h
    have hlen : d.length = d'.length := by
      simpa using congrArg List.length (h Field.rating)
    have hsum : processSummary d = processSummary d' := by
      unfold processSummary
      rw [h Field.timestamp, hlen]
    have hrat : processRating d = processRating d' := by
      unfold processRating
      rw [h Field.rating]
    have hpop : processPizzaPopularity d = processPizzaPopularity d' := by
      unfold processPizzaPopularity
      rw [h Field.pizzaType]
    have hfeel : processFeelings d = processFeelings d' := by
      unfold processFeelings
      rw [h Field.feeling]
    have hoa : processOrderAgain d = processOrderAgain d' := by
      unfold processOrderAgain
      rw [h Field.orderAgain]
    have hti : processTiers d = processTiers d' := by
      unfold processTiers
      rw [h Field.tier]
    have hwc : processWordCloud d = processWordCloud d' := by
      unfold processWordCloud
      rw [h Field.oneWord]
    have hcp : processColdPizza d = processColdPizza d' := by
      unfold processColdPizza
      rw [h Field.coldPizza]
    have hcm : processComments rand d = processComments rand d' := by
      unfold processComments
      rw [h Field.comments]
    unfold buildResult
    rw [hsum, hrat, hpop, hfeel, hoa, hti, hwc, hcp, hcm]

/-- Counterexample to C10 as stated: the row `{Tier: "Top"}` lacks any
pizza-type column; adding the empty-valued column `"Pizza"` makes the
pizza-type field resolve to it with value `""`, but also captures the tier
field's resolution (alias `'Pizza tier ranking'` contains `"pizza"`), so
the tiers aggregate changes — the two inputs do not yield identical
results. -/
theorem getValue_missing_cex :
    findColumn [("Tier", "Top")] Field.pizzaType = none ∧
    findColumn [("Pizza", ""), ("Tier", "Top")] Field.pizzaType = some "Pizza" ∧
    lookupVal [("Pizza", ""), ("Tier", "Top")] "Pizza" = "" ∧
    (buildResult (fun _ => 0) [[("Tier", "Top")]]).tiers.items.map (·.count)
      ≠ (buildResult (fun _ => 0) [[("Pizza", ""), ("Tier", "Top")]]).tiers.items.map (·.count) := by
  decide

/-- Witness for C10 at concrete inputs: an unmatched row yields the empty
string, and two row lists with identical per-field resolved values produce
identical results. -/
theorem getValue_missing_and_factorization_witness :
    getValue [("zzz", "1")] Field.rating = "" ∧
    buildResult (fun _ => 0) [[("Rating", "8"), ("junk", "z")]]
      = buildResult (fun _ => 0) [[("Rating", "8"), ("junk2", "z")]] :=
  ⟨getValue_missing_and_factorization.1 [("zzz", "1")] Field.rating (by decide),
   getValue_missing_and_factorization.2.2 (fun _ => 0) _ _ (by decide)⟩

end PizzaProc
